import Mathlib

/-!
# Verification of the react-native-queue scheduler core

A shallow embedding of the persistent job queue implemented in
`src/Models/Queue.js` and `src/Models/Worker.js`.

Conventions of the embedding:

* The Realm store is modelled as a `List Job` in table (insertion) order.
  The store primitives (`filtered` + `sorted` + `LIMIT`) are modelled per the
  persistence-adapter contract of the specification (section 4.1): filter the
  rows, sort them by the multi-key sort, then apply the row limit.  Realm
  itself is an external dependency, not code of this repository.
* Timestamps (`new Date()`, `Date.now()`) are integers in milliseconds; each
  call that reads the clock receives the current time as an explicit `now`
  parameter, and all clock reads inside one synchronous transaction are the
  same instant.
* The `data` column is a JSON string in the source
  (`JSON.stringify({attempts, failedAttempts, errors})`); it is modelled in
  decoded form as a `JobData` record, since the code always round-trips it
  through `JSON.parse`/`JSON.stringify`.
* JavaScript exceptions are modelled with `Except String`; a thrown error
  inside `realm.write` aborts the transaction, so an `Except.error` result
  leaves the store unchanged.
* JavaScript truthiness is translated literally: `!x` on a number is true for
  `0` and `undefined`; `x || d` yields `d` when `x` is `0` or absent; a
  possibly-`undefined` numeric field is an `Option Int`.
-/

/-- The decoded form of the `data` JSON column of a Job row:
`{attempts: int, failedAttempts?: int, errors?: [string]}`.
`failedAttempts` and `errors` are absent until the first failure. -/
structure JobData where
  attempts : Int
  failedAttempts : Option Int
  errors : Option (List String)
deriving Repr, DecidableEq

/-- A row of the Realm `Job` schema (see `src/config/Database.js` and the
`realm.create('Job', …)` call in `Queue.createJob`). -/
structure Job where
  id : String
  name : String
  payload : String
  data : JobData
  priority : Int
  active : Bool
  timeout : Int
  created : Int
  failed : Option Int
  nextValidTime : Int
  retryDelay : Int
deriving Repr, DecidableEq

/-- The `options` object accepted by `Queue.createJob`; every field may be
absent (JavaScript `undefined`). -/
structure JobOptions where
  priority : Option Int := none
  timeout : Option Int := none
  attempts : Option Int := none
  retryDelay : Option Int := none
deriving Repr, DecidableEq

/-- JavaScript `x || d` for a possibly-absent number `x`: `0` and `undefined`
are falsy, so both are replaced by the default. -/
def jsOrDefault (x : Option Int) (d : Int) : Int :=
  match x with
  | none => d
  | some v => if v = 0 then d else v

/-- `Queue.createJob(name, payload, options, …)` (`src/Models/Queue.js`,
lines 84-120): validates the name and options, then inserts one new row in a
write transaction.  The fresh uuid and the clock reading are passed in as
`id` and `now`.  A thrown validation error is `Except.error`; it happens
before `realm.write`, so the store is untouched.

`newJobRow` is the literal passed to `realm.create('Job', {...})`
(lines 97-111): `attempts` defaults via `options.attempts || 1`, `priority`
and `retryDelay` via `Number.isInteger(...) ? ... : 0`, and `timeout` via
`(options.timeout >= 0) ? options.timeout : 25000`. -/
def newJobRow (name : String) (payload : String) (opts : JobOptions)
    (id : String) (now : Int) : Job :=
  { id := id
    name := name
    payload := payload
    data := { attempts := jsOrDefault opts.attempts 1
              failedAttempts := none
              errors := none }
    priority := (match opts.priority with | some p => p | none => 0)
    active := false
    timeout := (match opts.timeout with
                | some t => if 0 ≤ t then t else 25000
                | none => 25000)
    created := now
    failed := none
    nextValidTime := now
    retryDelay := (match opts.retryDelay with | some r => r | none => 0) }

def createJob (name : String) (payload : String) (opts : JobOptions)
    (id : String) (now : Int) (store : List Job) : Except String (List Job) :=
  if name = "" then
    Except.error "Job name must be supplied."
  else if (match opts.timeout with | some t => decide (t < 0) | none => false) ||
          (match opts.attempts with | some a => decide (a < 0) | none => false) then
    Except.error "Invalid job option."
  else
    Except.ok (store ++ [newJobRow name payload opts id now])

/-- The store contents after a `createJob` call, including the case where the
call throws: the validation happens before the write transaction is opened,
so on an error the store is unchanged. -/
def createJobStore (name : String) (payload : String) (opts : JobOptions)
    (id : String) (now : Int) (store : List Job) : List Job :=
  match createJob name payload opts id now store with
  | Except.ok s' => s'
  | Except.error _ => store

/-- The failed-attempts bump of `Queue.processJob`'s catch block:
`if (!jobData.failedAttempts) { = 1 } else { ++ }`.  JavaScript `!` treats
both an absent field and `0` as falsy. -/
def bumpFailedAttempts : Option Int → Int
  | none => 1
  | some n => if n = 0 then 1 else n + 1

/-- The error log append of `Queue.processJob`'s catch block:
`if (!jobData.errors) { = [msg] } else { push(msg) }`.  An empty array is
truthy in JavaScript, so only an absent field is initialized. -/
def appendError : Option (List String) → String → List String
  | none, msg => [msg]
  | some l, msg => l ++ [msg]

/-- The row update performed by the catch block of `Queue.processJob`
(`src/Models/Queue.js`, lines 365-397): bump `failedAttempts`, log the error
message, reset `active`, mark `failed` when attempts are exhausted, and push
`nextValidTime` out by the retry delay. -/
def failJobUpdate (j : Job) (msg : String) (now : Int) : Job :=
  let d := j.data
  let newFA := bumpFailedAttempts d.failedAttempts
  { j with
    data := { d with failedAttempts := some newFA
                     errors := some (appendError d.errors msg) }
    active := false
    failed := if d.attempts ≤ newFA then some now else j.failed
    nextValidTime := now + j.retryDelay }

/-- `Queue.processJob(job)` (`src/Models/Queue.js`, lines 338-414), projected
onto the store.  The asynchronous handler execution
(`this.worker.executeJob(job)`) is summarized by `outcome`: `Except.ok` when
the handler settled successfully, `Except.error msg` when it threw, timed
out, or had no registered worker (`msg` is the `error.message`).  On success
the row is deleted; on failure it is updated in place.  The catch block
swallows the error, so `processJob` is a total function on stores — no error
value escapes it. -/
def processJob (store : List Job) (jobId : String)
    (outcome : Except String Unit) (now : Int) : List Job :=
  match outcome with
  | Except.ok _ => store.filter (fun j => ¬ (j.id = jobId))
  | Except.error msg =>
      store.map (fun j => if j.id = jobId then failJobUpdate j msg now else j)

/-- `Queue.flushQueue(jobName)` (`src/Models/Queue.js`, lines 425-448):
delete all rows of one name, or every row when no name is given. -/
def flushQueue (store : List Job) (jobName : Option String) : List Job :=
  match jobName with
  | some n => store.filter (fun j => ¬ (j.name = n))
  | none => []

/-- `Queue.flushJob(jobId)` (`src/Models/Queue.js`, lines 454-470): delete
the row with the given id if present. -/
def flushJob (store : List Job) (jobId : String) : List Job :=
  store.filter (fun j => ¬ (j.id = jobId))

example :
    createJob "worker" "{}" {} "id1" 7 [] =
      Except.ok [{
        id := "id1", name := "worker", payload := "{}"
        data := { attempts := 1, failedAttempts := none, errors := none }
        priority := 0, active := false, timeout := 25000, created := 7
        failed := none, nextValidTime := 7, retryDelay := 0 }] := by
  rfl

example :
    createJob "w" "{}" { timeout := some (-1) } "id1" 0 [] =
      Except.error "Invalid job option." := by
  rfl

/-- The comparison realized by `.sorted([['priority', true], ['created', false]])`
in `Queue.getConcurrentJobs`: priority descending, then creation time
ascending. -/
def jobKeyLE (a b : Job) : Bool :=
  decide (b.priority < a.priority) ||
    (decide (a.priority = b.priority) && decide (a.created ≤ b.created))

/-- Insert a job into a list sorted by `jobKeyLE`, keeping it sorted. -/
def insertJob (a : Job) : List Job → List Job
  | [] => [a]
  | b :: l => if jobKeyLE a b then a :: b :: l else b :: insertJob a l

/-- The Realm multi-key sort of `Queue.getConcurrentJobs`
(`.sorted([['priority', true], ['created', false]])`), realized as an
insertion sort: the result lists the rows in priority-descending,
created-ascending order. -/
def sortJobs : List Job → List Job
  | [] => []
  | a :: l => insertJob a (sortJobs l)

/-- The `LIMIT(jobsLimit)` clause appended to every query of
`Queue.getConcurrentJobs` when `jobsLimit > -1`. -/
def limitTake (jobsLimit : Int) (l : List Job) : List Job :=
  if jobsLimit > -1 then l.take jobsLimit.toNat else l

/-- `timeoutUpperBound` of `Queue.getConcurrentJobs` (line 266):
`(queueLifespanRemaining - 500 > 0) ? queueLifespanRemaining - 499 : 0`. -/
def timeoutUpperBound (lifespanRemaining : Int) : Int :=
  if lifespanRemaining - 500 > 0 then lifespanRemaining - 499 else 0

/-- The row predicate of the `initialQuery` of `Queue.getConcurrentJobs`
(lines 268-270).  The ternary on `queueLifespanRemaining` uses JavaScript
truthiness, so any nonzero value (including the `-1` sentinel for an expired
lifespan) selects the lifespan-constrained query. -/
def eligibleFilter (lifespanRemaining now : Int) (j : Job) : Bool :=
  if lifespanRemaining ≠ 0 then
    !j.active && j.failed.isNone && decide (0 < j.timeout) &&
      decide (j.timeout < timeoutUpperBound lifespanRemaining) &&
      decide (j.nextValidTime ≤ now)
  else
    !j.active && j.failed.isNone && decide (j.nextValidTime ≤ now)

/-- The error thrown by `Worker.getConcurrency` (`src/Models/Worker.js`,
lines 65-74) when no worker is registered for a job name. -/
def noWorkerMsg (name : String) : String :=
  "Job " ++ name ++ " does not have a worker assigned to it."

/-- The query `filtered(query + limitQuery).sorted([['priority', true],
['created', false]])` used three times by `Queue.getConcurrentJobs`,
modelled per the persistence-adapter contract: predicate, then sort, then
row limit. -/
def queryJobs (store : List Job) (p : Job → Bool) (jobsLimit : Int) : List Job :=
  limitTake jobsLimit (sortJobs (store.filter p))

/-- `Queue.getConcurrentJobs(jobsLimit = -1, queueLifespanRemaining = 0)`
(`src/Models/Queue.js`, lines 254-321), one write transaction:

1. query the eligible rows, sorted, limited; the first row is the pivot;
2. `this.worker.getConcurrency(pivot.name)` — throws (aborting the
   transaction before any row was touched) when no worker is registered;
3. query the eligible rows of the pivot's name, take the first `concurrency`;
4. flip `active` to `true` on exactly those rows;
5. re-select the flipped rows by id and return them.

The worker registry (`Worker.workers`, a singleton name → worker map whose
`options.concurrency` is read here) is summarized by
`w : String → Option Nat`.  The result pairs the post-transaction store with
the returned batch.

`relatedJobsQuery` is the `allRelatedJobsQuery` of step 3: the eligibility
predicate further restricted to the pivot's name. -/
def relatedJobsQuery (store : List Job) (lifespanRemaining now : Int)
    (name : String) (jobsLimit : Int) : List Job :=
  queryJobs store
    (fun j => decide (j.name = name) && eligibleFilter lifespanRemaining now j) jobsLimit

/-- Flip `active` to `true` on exactly the rows whose id is in `ids` (the
`jobsToMarkActive` mutation of `Queue.getConcurrentJobs`). -/
def markActive (store : List Job) (ids : List String) : List Job :=
  store.map (fun j => if ids.contains j.id then { j with active := true } else j)

def getConcurrentJobs (w : String → Option Nat) (store : List Job)
    (jobsLimit lifespanRemaining now : Int) :
    Except String (List Job × List Job) :=
  match queryJobs store (eligibleFilter lifespanRemaining now) jobsLimit with
  | [] => Except.ok (store, [])
  | nextJob :: _ =>
    match w nextJob.name with
    | none => Except.error (noWorkerMsg nextJob.name)
    | some concurrency =>
      let toMark := (relatedJobsQuery store lifespanRemaining now nextJob.name jobsLimit).take
        concurrency
      let ids := toMark.map (fun j => j.id)
      let newStore := markActive store ids
      let reselected := queryJobs newStore (fun j => ids.contains j.id) jobsLimit
      Except.ok (newStore, reselected.take concurrency)

/-- The store contents after `Queue.getConcurrentJobs` returns or throws: a
thrown `getConcurrency` error cancels the `realm.write` transaction, so the
store is unchanged in the error case. -/
def getConcurrentJobsStore (w : String → Option Nat) (store : List Job)
    (jobsLimit lifespanRemaining now : Int) : List Job :=
  match getConcurrentJobs w store jobsLimit lifespanRemaining now with
  | Except.ok (s', _) => s'
  | Except.error _ => store

/-- The scheduler status of a `Queue` instance (`this.status`). -/
inductive QStatus where
  | active
  | inactive
deriving Repr, DecidableEq

/-- The scheduler-level fields of a `Queue` instance.  `lifespan` and
`startTime` are `Option Int` because `delete this.startTime` /
`delete this.lifespan` leave them `undefined`. -/
structure SchedState where
  status : QStatus
  lifespan : Option Int
  startTime : Option Int
deriving Repr, DecidableEq

/-- `Queue.calculateRemainingLifespan()` (`src/Models/Queue.js`,
lines 122-125): `lifespan - (now - startTime)`, with an exactly-zero result
mapped to `-1` so that a consumer can tell "lifespan mode, time up" apart
from "no lifespan mode". -/
def calculateRemainingLifespan (lifespan startTime now : Int) : Int :=
  let lifespanRemaining := lifespan - (now - startTime)
  if lifespanRemaining = 0 then -1 else lifespanRemaining

/-- `Queue.calculateJobs(jobsLimit)` (`src/Models/Queue.js`, lines 127-134):
with a nonzero recorded lifespan the claim query receives the remaining
lifespan, otherwise it runs without lifespan constraints (the
`queueLifespanRemaining` parameter defaults to `0`). -/
def calculateJobs (w : String → Option Nat) (store : List Job)
    (lifespan startTime now jobsLimit : Int) :
    Except String (List Job × List Job) :=
  if lifespan ≠ 0 then
    getConcurrentJobs w store jobsLimit
      (calculateRemainingLifespan lifespan startTime now) now
  else
    getConcurrentJobs w store jobsLimit 0 now

/-- The synchronous prefix of `Queue.start(lifespan, numberOfJobsToProcess)`
(`src/Models/Queue.js`, lines 159-175) up to its first `await`:
`this.lifespan = lifespan` is assigned first, then the early-return guard
fires when the status is already `active` (returning `false`, the second
component `some false`), otherwise the status flips to `active` and
`startTime` is refreshed when absent or when the previous lifespan has
expired (`some now`).  A `none` second component means the call proceeds
into the asynchronous processing loop, whose store effects are the
`calculateJobs`/`processJob` steps modelled above. -/
def startGuard (q : SchedState) (lifespan now : Int) : SchedState × Option Bool :=
  let q1 := { q with lifespan := some lifespan }
  if q1.status = QStatus.active then
    (q1, some false)
  else
    let q2 := { q1 with status := QStatus.active }
    let q3 :=
      if q2.startTime = none ∨
          calculateRemainingLifespan (q2.lifespan.getD 0) (q2.startTime.getD 0) now < 0 then
        { q2 with startTime := some now }
      else q2
    (q3, none)

/-- `Queue.stop()` (`src/Models/Queue.js`, lines 208-212). -/
def stopQueue (q : SchedState) : SchedState :=
  { q with status := QStatus.inactive, lifespan := none, startTime := none }

/-- Helper for the `createJob` theorems: the option-validation condition is
false when any supplied timeout and attempts are nonnegative. -/
theorem createJob_valid_cond (opts : JobOptions)
    (hto : ∀ t, opts.timeout = some t → 0 ≤ t)
    (hat : ∀ a, opts.attempts = some a → 0 ≤ a) :
    ((match opts.timeout with | some t => decide (t < 0) | none => false) ||
     (match opts.attempts with | some a => decide (a < 0) | none => false)) = false := by
  rcases hT : opts.timeout with _ | t <;> rcases hA : opts.attempts with _ | a
  · rfl
  · simpa using hat a hA
  · simpa using hto t hT
  · simp only [Bool.or_eq_false_iff, decide_eq_false_iff_not, Int.not_lt]
    exact ⟨hto t hT, hat a hA⟩

/-- C7: `create_job` with an explicit `{timeout: 0}` stores `timeout == 0`
rather than the 25000 default; an absent timeout defaults to 25000, absent
priority and retryDelay default to 0; and every freshly inserted row has
`active == false`, `failed == null` and `nextValidTime` equal to its
creation time. -/
theorem createJob_explicit_zero_timeout_and_defaults
    (name payload : String) (opts : JobOptions) (id : String) (now : Int)
    (store : List Job) (hname : name ≠ "")
    (hto : ∀ t, opts.timeout = some t → 0 ≤ t)
    (hat : ∀ a, opts.attempts = some a → 0 ≤ a) :
    ∃ row, createJob name payload opts id now store = Except.ok (store ++ [row]) ∧
      (opts.timeout = some 0 → row.timeout = 0) ∧
      (opts.timeout = none → row.timeout = 25000) ∧
      (opts.priority = none → row.priority = 0) ∧
      (opts.retryDelay = none → row.retryDelay = 0) ∧
      row.active = false ∧ row.failed = none ∧ row.nextValidTime = row.created := by
  refine ⟨newJobRow name payload opts id now, ?_, ?_, ?_, ?_, ?_, rfl, rfl, rfl⟩
  · unfold createJob
    rw [if_neg hname]
    simp only [createJob_valid_cond opts hto hat, Bool.false_eq_true, if_false]
  · intro h; simp only [newJobRow, h]; rfl
  · intro h; simp only [newJobRow, h]
  · intro h; simp only [newJobRow, h]
  · intro h; simp only [newJobRow, h]

/-- C7 witness: instantiation at a concrete call with `{timeout: 0}`. -/
theorem createJob_explicit_zero_timeout_and_defaults_witness :
    ∃ row, createJob "w" "{}" { timeout := some 0 } "id" 3 [] = Except.ok ([] ++ [row]) ∧
      ((some 0 : Option Int) = some 0 → row.timeout = 0) ∧
      ((some 0 : Option Int) = none → row.timeout = 25000) ∧
      ((none : Option Int) = none → row.priority = 0) ∧
      ((none : Option Int) = none → row.retryDelay = 0) ∧
      row.active = false ∧ row.failed = none ∧ row.nextValidTime = row.created :=
  createJob_explicit_zero_timeout_and_defaults "w" "{}" { timeout := some 0 } "id" 3 []
    (by decide)
    (by intro t ht; injection ht with h; omega)
    (by intro a ha; cases ha)

/-- Helper for C8: the option-validation condition of `createJob`, read back
as a proposition about the supplied options. -/
theorem createJob_bad_cond_iff (opts : JobOptions) :
    (((match opts.timeout with | some t => decide (t < 0) | none => false) ||
      (match opts.attempts with | some a => decide (a < 0) | none => false)) = true) ↔
      ((∃ t, opts.timeout = some t ∧ t < 0) ∨ (∃ a, opts.attempts = some a ∧ a < 0)) := by
  rcases hT : opts.timeout with _ | t <;> rcases hA : opts.attempts with _ | a <;>
    simp [hT, hA]

/-- C8: `create_job` throws exactly when the name is empty, the supplied
timeout is negative, or the supplied attempts count is negative; and in that
case the store is unchanged (the validation happens before the write
transaction opens). -/
theorem createJob_invalid_argument_iff
    (name payload : String) (opts : JobOptions) (id : String) (now : Int)
    (store : List Job) :
    ((∃ e, createJob name payload opts id now store = Except.error e) ↔
      (name = "" ∨ (∃ t, opts.timeout = some t ∧ t < 0) ∨
        (∃ a, opts.attempts = some a ∧ a < 0))) ∧
    ((name = "" ∨ (∃ t, opts.timeout = some t ∧ t < 0) ∨
        (∃ a, opts.attempts = some a ∧ a < 0)) →
      createJobStore name payload opts id now store = store) := by
  by_cases hn : name = ""
  · constructor
    · simp [createJob, hn]
    · intro _; simp [createJobStore, createJob, hn]
  · by_cases hv : ((match opts.timeout with | some t => decide (t < 0) | none => false) ||
      (match opts.attempts with | some a => decide (a < 0) | none => false)) = true
    · constructor
      · simp only [createJob, if_neg hn, hv, if_true]
        constructor
        · intro _; exact Or.inr ((createJob_bad_cond_iff opts).mp hv)
        · intro _; exact ⟨_, rfl⟩
      · intro _
        simp only [createJobStore, createJob, if_neg hn, hv, if_true]
    · have hbad := (createJob_bad_cond_iff opts).not.mp hv
      push_neg at hbad
      constructor
      · simp only [createJob, if_neg hn, hv, Bool.false_eq_true, if_false]
        constructor
        · rintro ⟨e, he⟩; cases he
        · rintro (h | h | h)
          · exact absurd h hn
          · exact absurd (Or.inl h) ((createJob_bad_cond_iff opts).not.mp hv)
          · exact absurd (Or.inr h) ((createJob_bad_cond_iff opts).not.mp hv)
      · rintro (h | h | h)
        · exact absurd h hn
        · exact absurd (Or.inl h) ((createJob_bad_cond_iff opts).not.mp hv)
        · exact absurd (Or.inr h) ((createJob_bad_cond_iff opts).not.mp hv)

/-- C8 witness: a negative timeout is rejected with the store untouched, at a
concrete call. -/
theorem createJob_invalid_argument_iff_witness :
    (∃ e, createJob "w" "{}" { timeout := some (-2) } "id" 0 [] = Except.error e) ∧
    createJobStore "w" "{}" { timeout := some (-2) } "id" 0 [] = [] :=
  ⟨(createJob_invalid_argument_iff "w" "{}" { timeout := some (-2) } "id" 0 []).1.mpr
      (Or.inr (Or.inl ⟨-2, rfl, by decide⟩)),
   (createJob_invalid_argument_iff "w" "{}" { timeout := some (-2) } "id" 0 []).2
      (Or.inr (Or.inl ⟨-2, rfl, by decide⟩))⟩

/-- C10: `create_job` with an explicit `{attempts: 0}` passes validation
(zero is not negative) and stores `data.attempts = 1`, because the
JavaScript default expression `options.attempts || 1` treats `0` as falsy —
so such a job is attempted once. -/
theorem createJob_attempts_zero_stores_one
    (name payload : String) (opts : JobOptions) (id : String) (now : Int)
    (store : List Job) (hname : name ≠ "")
    (hto : ∀ t, opts.timeout = some t → 0 ≤ t)
    (hat : opts.attempts = some 0) :
    ∃ row, createJob name payload opts id now store = Except.ok (store ++ [row]) ∧
      row.data.attempts = 1 := by
  refine ⟨newJobRow name payload opts id now, ?_, ?_⟩
  · unfold createJob
    rw [if_neg hname]
    have hv := createJob_valid_cond opts hto
      (by intro a ha; rw [hat] at ha; injection ha with h; omega)
    simp only [hv, Bool.false_eq_true, if_false]
  · simp only [newJobRow, jsOrDefault, hat]; rfl

/-- C10 witness: instantiation at a concrete call with `{attempts: 0}`. -/
theorem createJob_attempts_zero_stores_one_witness :
    ∃ row, createJob "w" "{}" { attempts := some 0 } "id" 5 [] = Except.ok ([] ++ [row]) ∧
      row.data.attempts = 1 :=
  createJob_attempts_zero_stores_one "w" "{}" { attempts := some 0 } "id" 5 []
    (by decide) (by intro t ht; cases ht) rfl

/-- A scheduler that is already running, with a recorded lifespan of 5 ms and
a recorded start time. -/
def busySched : SchedState :=
  { status := QStatus.active, lifespan := some 5, startTime := some 0 }

/-- C5 counterexample: `start` called while the queue is active does return
`false` immediately, but it is not free of side effects — the statement
`this.lifespan = lifespan` runs before the status guard, so the recorded
lifespan of the already-running loop is overwritten by the argument. -/
theorem startGuard_active_not_side_effect_free :
    (startGuard busySched 7 3).2 = some false ∧
    (startGuard busySched 7 3).1.lifespan ≠ busySched.lifespan := by
  decide

/-- C5 amended: when the scheduler status is `active`, `start` returns
`false` before reaching any store operation or the processing loop, leaving
`status` and `startTime` (and every store row) untouched — but it does
overwrite the recorded `lifespan` field with its argument. -/
theorem startGuard_active_returns_false
    (q : SchedState) (lifespan now : Int) (h : q.status = QStatus.active) :
    startGuard q lifespan now = ({ q with lifespan := some lifespan }, some false) := by
  simp [startGuard, h]

/-- C5 witness: the amended statement at the concrete busy scheduler. -/
theorem startGuard_active_returns_false_witness :
    startGuard busySched 7 3 = ({ busySched with lifespan := some 7 }, some false) :=
  startGuard_active_returns_false busySched 7 3 rfl

/-- C3: when a job's handler fails (throws, times out, or has no registered
worker), `process_job` updates the row in one write transaction: the decoded
`data` gets `failedAttempts` incremented (initialized to 1 when absent), the
error message appended to `errors`, `active` is reset to `false`,
`nextValidTime` becomes `now + retryDelay`, and `failed` is set to a
timestamp exactly when the new `failedAttempts` count reaches `attempts`.
`processJob` is a total function into stores — the caught error never
escapes it. -/
theorem processJob_failure_updates_row
    (store : List Job) (j : Job) (msg : String) (now : Int)
    (hmem : j ∈ store) (hfailed : j.failed = none) :
    failJobUpdate j msg now ∈ processJob store j.id (Except.error msg) now ∧
    (j.data.failedAttempts = none →
      (failJobUpdate j msg now).data.failedAttempts = some 1) ∧
    (∀ n, j.data.failedAttempts = some n → n ≠ 0 →
      (failJobUpdate j msg now).data.failedAttempts = some (n + 1)) ∧
    (failJobUpdate j msg now).data.errors = some (j.data.errors.getD [] ++ [msg]) ∧
    (failJobUpdate j msg now).active = false ∧
    (failJobUpdate j msg now).nextValidTime = now + j.retryDelay ∧
    (∀ fa, (failJobUpdate j msg now).data.failedAttempts = some fa →
      ((failJobUpdate j msg now).failed ≠ none ↔ j.data.attempts ≤ fa)) := by
  refine ⟨?_, ?_, ?_, ?_, rfl, rfl, ?_⟩
  · show failJobUpdate j msg now ∈
        store.map (fun x => if x.id = j.id then failJobUpdate x msg now else x)
    exact List.mem_map.mpr ⟨j, hmem, by simp⟩
  · intro h; simp [failJobUpdate, h, bumpFailedAttempts]
  · intro n hn hn0; simp [failJobUpdate, hn, bumpFailedAttempts, hn0]
  · rcases he : j.data.errors with _ | l <;> simp [failJobUpdate, appendError, he]
  · intro fa hfa
    have hfa' : fa = bumpFailedAttempts j.data.failedAttempts := by
      simpa [failJobUpdate] using hfa.symm
    subst hfa'
    by_cases hc : j.data.attempts ≤ bumpFailedAttempts j.data.failedAttempts
    · simp [failJobUpdate, hc]
    · simp [failJobUpdate, hc, hfailed]

/-- C3 witness: a fresh one-attempt job failing once at a concrete input. -/
theorem processJob_failure_updates_row_witness :
    ∃ j : Job, j ∈ [j] ∧ j.failed = none ∧
      failJobUpdate j "boom" 9 ∈ processJob [j] j.id (Except.error "boom") 9 ∧
      (failJobUpdate j "boom" 9).active = false := by
  refine ⟨newJobRow "w" "{}" {} "id" 0, List.mem_singleton.mpr rfl, rfl, ?_, ?_⟩
  · exact (processJob_failure_updates_row [newJobRow "w" "{}" {} "id" 0]
      (newJobRow "w" "{}" {} "id" 0) "boom" 9 (List.mem_singleton.mpr rfl) rfl).1
  · exact (processJob_failure_updates_row [newJobRow "w" "{}" {} "id" 0]
      (newJobRow "w" "{}" {} "id" 0) "boom" 9 (List.mem_singleton.mpr rfl) rfl).2.2.2.2.1

/-- C4: a successfully handled job is deleted by `process_job` (no row with
its id remains), while a job whose handler fails non-terminally (the bumped
`failedAttempts` staying below `attempts`) keeps its row, reset to
`active == false` with `failed` still null. -/
theorem processJob_success_deletes_failure_keeps
    (store : List Job) (j : Job) (msg : String) (now : Int)
    (hmem : j ∈ store) (hfailed : j.failed = none) :
    (∀ r ∈ processJob store j.id (Except.ok ()) now, r.id ≠ j.id) ∧
    (bumpFailedAttempts j.data.failedAttempts < j.data.attempts →
      ∃ r ∈ processJob store j.id (Except.error msg) now,
        r.id = j.id ∧ r.active = false ∧ r.failed = none) := by
  constructor
  · intro r hr
    have := List.of_mem_filter hr
    simpa using this
  · intro hlt
    refine ⟨failJobUpdate j msg now, ?_, rfl, rfl, ?_⟩
    · show failJobUpdate j msg now ∈
          store.map (fun x => if x.id = j.id then failJobUpdate x msg now else x)
      exact List.mem_map.mpr ⟨j, hmem, by simp⟩
    · simp [failJobUpdate, not_le.mpr hlt, hfailed]

/-- C4 witness: a fresh two-attempt job, one success call and one
non-terminal failure call, at concrete inputs. -/
theorem processJob_success_deletes_failure_keeps_witness :
    (∀ r ∈ processJob [newJobRow "w" "{}" { attempts := some 2 } "id" 0]
        (newJobRow "w" "{}" { attempts := some 2 } "id" 0).id (Except.ok ()) 9,
      r.id ≠ (newJobRow "w" "{}" { attempts := some 2 } "id" 0).id) ∧
    ∃ r ∈ processJob [newJobRow "w" "{}" { attempts := some 2 } "id" 0]
        (newJobRow "w" "{}" { attempts := some 2 } "id" 0).id (Except.error "boom") 9,
      r.id = (newJobRow "w" "{}" { attempts := some 2 } "id" 0).id ∧
      r.active = false ∧ r.failed = none :=
  ⟨(processJob_success_deletes_failure_keeps _ _ "boom" 9
      (List.mem_singleton.mpr rfl) rfl).1,
   (processJob_success_deletes_failure_keeps _ _ "boom" 9
      (List.mem_singleton.mpr rfl) rfl).2 (by decide)⟩

theorem jobKeyLE_refl (a : Job) : jobKeyLE a a = true := by
  simp [jobKeyLE]

theorem jobKeyLE_trans (a b c : Job) (hab : jobKeyLE a b = true)
    (hbc : jobKeyLE b c = true) : jobKeyLE a c = true := by
  simp only [jobKeyLE, Bool.or_eq_true, Bool.and_eq_true, decide_eq_true_eq] at *
  rcases hab with h | ⟨h1, h2⟩ <;> rcases hbc with h' | ⟨h1', h2'⟩
  · exact Or.inl (h'.trans h)
  · exact Or.inl (h1' ▸ h)
  · exact Or.inl (h1 ▸ h')
  · exact Or.inr ⟨h1.trans h1', h2.trans h2'⟩

theorem jobKeyLE_total (a b : Job) : (jobKeyLE a b || jobKeyLE b a) = true := by
  simp only [jobKeyLE, Bool.or_eq_true, Bool.and_eq_true, decide_eq_true_eq]
  omega

theorem jobKeyLE_antisymm_keys (a b : Job) (hab : jobKeyLE a b = true)
    (hba : jobKeyLE b a = true) : a.priority = b.priority ∧ a.created = b.created := by
  simp only [jobKeyLE, Bool.or_eq_true, Bool.and_eq_true, decide_eq_true_eq] at *
  omega

theorem insertJob_perm (a : Job) (l : List Job) :
    List.Perm (insertJob a l) (a :: l) := by
  induction l with
  | nil => exact List.Perm.refl _
  | cons b t ih =>
    unfold insertJob
    split
    · exact List.Perm.refl _
    · exact (List.Perm.cons b ih).trans (List.Perm.swap a b t)

theorem sortJobs_perm (l : List Job) : List.Perm (sortJobs l) l := by
  induction l with
  | nil => exact List.Perm.refl _
  | cons a t ih => exact (insertJob_perm a (sortJobs t)).trans (List.Perm.cons a ih)

theorem insertJob_pairwise (a : Job) (l : List Job)
    (h : l.Pairwise (fun x y => jobKeyLE x y = true)) :
    (insertJob a l).Pairwise (fun x y => jobKeyLE x y = true) := by
  induction l with
  | nil => simp [insertJob]
  | cons b t ih =>
    rw [List.pairwise_cons] at h
    unfold insertJob
    split
    · rename_i hab
      rw [List.pairwise_cons]
      refine ⟨?_, List.pairwise_cons.mpr h⟩
      intro x hx
      rcases List.mem_cons.mp hx with rfl | hx'
      · exact hab
      · exact jobKeyLE_trans a b x hab (h.1 x hx')
    · rename_i hab
      have hba : jobKeyLE b a = true := by
        have := jobKeyLE_total a b
        simp only [Bool.or_eq_true] at this
        rcases this with h' | h'
        · exact absurd h' hab
        · exact h'
      rw [List.pairwise_cons]
      refine ⟨?_, ih h.2⟩
      intro x hx
      rcases List.mem_cons.mp ((insertJob_perm a t).mem_iff.mp hx) with rfl | hx'
      · exact hba
      · exact h.1 x hx'

theorem sortJobs_sorted (l : List Job) :
    (sortJobs l).Pairwise (fun a b => jobKeyLE a b = true) := by
  induction l with
  | nil => simp [sortJobs]
  | cons a t ih => exact insertJob_pairwise a (sortJobs t) ih

theorem mem_sortJobs {l : List Job} {a : Job} : a ∈ sortJobs l ↔ a ∈ l :=
  (sortJobs_perm l).mem_iff

/-- `limitTake` returns a prefix of its input. -/
theorem limitTake_sublist (jobsLimit : Int) (l : List Job) :
    (limitTake jobsLimit l).Sublist l := by
  unfold limitTake
  split
  · exact List.take_sublist _ _
  · exact List.Sublist.refl _

/-- A row returned by one of the three store queries is a row of the store
satisfying the query predicate. -/
theorem mem_queryJobs {store : List Job} {p : Job → Bool} {lim : Int} {j : Job}
    (h : j ∈ queryJobs store p lim) : j ∈ store ∧ p j = true := by
  have h1 : j ∈ sortJobs (store.filter p) :=
    (limitTake_sublist lim _).subset h
  rw [mem_sortJobs, List.mem_filter] at h1
  exact h1

/-- With Realm's primary-key uniqueness, two store rows with the same id are
the same row. -/
theorem eq_of_mem_of_same_id {store : List Job} {a b : Job}
    (hIds : store.Pairwise (fun a b => a.id ≠ b.id))
    (ha : a ∈ store) (hb : b ∈ store) (hid : a.id = b.id) : a = b := by
  by_contra hne
  have hsym : Symmetric (fun (a b : Job) => a.id ≠ b.id) := by
    intro x y h e
    exact h e.symm
  exact hIds.forall hsym ha hb hne hid

/-- C9: when the pivot row selected by `get_concurrent_jobs` names a job with
no registered worker, `Worker.getConcurrency` throws, the error message
contains the job name, and the write transaction aborts before any row was
mutated, so the store keeps every prior `active` flag and no job is
returned. -/
theorem getConcurrentJobs_no_worker_aborts
    (w : String → Option Nat) (store : List Job) (lim lr now : Int)
    (pivot : Job) (rest : List Job)
    (hq : queryJobs store (eligibleFilter lr now) lim = pivot :: rest)
    (hw : w pivot.name = none) :
    getConcurrentJobs w store lim lr now = Except.error (noWorkerMsg pivot.name) ∧
    (∃ pre post, noWorkerMsg pivot.name = pre ++ pivot.name ++ post) ∧
    getConcurrentJobsStore w store lim lr now = store := by
  have h1 : getConcurrentJobs w store lim lr now =
      Except.error (noWorkerMsg pivot.name) := by
    unfold getConcurrentJobs
    rw [hq]
    simp only [hw]
  exact ⟨h1,
    ⟨"Job ", " does not have a worker assigned to it.", rfl⟩,
    by rw [getConcurrentJobsStore, h1]⟩

/-- A single eligible job with no registered worker, for the C9 witness. -/
def orphanJob : Job := newJobRow "orphan" "{}" {} "idO" 0

/-- C9 witness: the no-worker abort at a concrete one-job store with an empty
worker registry. -/
theorem getConcurrentJobs_no_worker_aborts_witness :
    getConcurrentJobs (fun _ => none) [orphanJob] (-1) 0 5 =
      Except.error (noWorkerMsg orphanJob.name) ∧
    (∃ pre post, noWorkerMsg orphanJob.name = pre ++ orphanJob.name ++ post) ∧
    getConcurrentJobsStore (fun _ => none) [orphanJob] (-1) 0 5 = [orphanJob] :=
  getConcurrentJobs_no_worker_aborts (fun _ => none) [orphanJob] (-1) 0 5
    orphanJob [] (by decide) rfl

/-- The lifespan timeout cap of the code never exceeds the specification's
`max(lifespan_remaining - 499, 0)` bound. -/
theorem timeoutUpperBound_le_max (lr : Int) :
    timeoutUpperBound lr ≤ max (lr - 499) 0 := by
  unfold timeoutUpperBound
  split
  · exact le_max_of_le_left (by omega)
  · exact le_max_right _ _

/-- A job returned by `get_concurrent_jobs` descends from a store row that
satisfied the eligibility predicate of the claim transaction (given Realm's
primary-key uniqueness), with only its `active` flag possibly flipped. -/
theorem mem_result_from_eligible
    (w : String → Option Nat) (store : List Job) (lim lr now : Int)
    (hIds : store.Pairwise (fun a b => a.id ≠ b.id))
    (s' res : List Job)
    (hok : getConcurrentJobs w store lim lr now = Except.ok (s', res))
    (j : Job) (hj : j ∈ res) :
    res = [] ∨ ∃ j₀ ∈ store, eligibleFilter lr now j₀ = true ∧
      j = { j₀ with active := true } := by
  rcases hq : queryJobs store (eligibleFilter lr now) lim with _ | ⟨pivot, rest⟩
  · unfold getConcurrentJobs at hok
    rw [hq] at hok
    simp only [Except.ok.injEq, Prod.mk.injEq] at hok
    exact Or.inl hok.2.symm
  · rcases hw : w pivot.name with _ | conc
    · unfold getConcurrentJobs at hok
      rw [hq] at hok
      simp only [hw] at hok
      exact Except.noConfusion hok
    · unfold getConcurrentJobs at hok
      rw [hq] at hok
      simp only [hw, Except.ok.injEq, Prod.mk.injEq] at hok
      refine Or.inr ?_
      obtain ⟨hs', hres⟩ := hok
      subst hres
      have hj1 := (List.take_sublist _ _).subset hj
      obtain ⟨hjmem, hjid⟩ := mem_queryJobs hj1
      subst hs'
      obtain ⟨j₀, hj₀, hfj₀⟩ := List.mem_map.mp hjmem
      by_cases hc : (((relatedJobsQuery store lr now pivot.name lim).take conc).map
          (fun j => j.id)).contains j₀.id
      · rw [if_pos hc] at hfj₀
        have hidj : j.id = j₀.id := by rw [← hfj₀]
        have hmemids : j₀.id ∈ ((relatedJobsQuery store lr now pivot.name lim).take
            conc).map (fun j => j.id) := by
          exact List.mem_of_elem_eq_true hc
        obtain ⟨m, hm, hmid⟩ := List.mem_map.mp hmemids
        have hm1 := (List.take_sublist _ _).subset hm
        obtain ⟨hmmem, hmp⟩ := mem_queryJobs hm1
        have hmeq : m = j₀ := eq_of_mem_of_same_id hIds hmmem hj₀ hmid
        rw [Bool.and_eq_true, decide_eq_true_eq] at hmp
        exact ⟨j₀, hj₀, by rw [← hmeq]; exact hmp.2, hfj₀.symm⟩
      · rw [if_neg hc] at hfj₀
        subst hfj₀
        rw [List.contains, List.elem_eq_true_of_mem
          (by exact absurd hjid (by simp [List.contains] at hc ⊢; exact hc))] at hc
        exact absurd rfl hc

/-- C2: with a positive remaining lifespan every job returned by
`get_concurrent_jobs` has `0 < timeout` and
`timeout < max(lifespan_remaining - 499, 0)`; with lifespan mode active but
no time remaining (a negative remaining-lifespan value — the code maps an
exactly-zero remainder to the `-1` sentinel) the result is empty and the
store untouched; and with lifespan `0` the query predicate carries no
timeout clauses at all. -/
theorem getConcurrentJobs_lifespan_bounds
    (w : String → Option Nat) (store : List Job) (lim lr now : Int)
    (hIds : store.Pairwise (fun a b => a.id ≠ b.id)) :
    (0 < lr → ∀ s' res, getConcurrentJobs w store lim lr now = Except.ok (s', res) →
      ∀ j ∈ res, 0 < j.timeout ∧ j.timeout < max (lr - 499) 0) ∧
    (lr < 0 → getConcurrentJobs w store lim lr now = Except.ok (store, [])) ∧
    (∀ j, eligibleFilter 0 now j =
      (!j.active && j.failed.isNone && decide (j.nextValidTime ≤ now))) := by
  refine ⟨?_, ?_, ?_⟩
  · intro hlr s' res hok j hj
    rcases mem_result_from_eligible w store lim lr now hIds s' res hok j hj with
      hres | ⟨j₀, hj₀, helig, hjeq⟩
    · rw [hres] at hj
      cases hj
    · have hne : lr ≠ 0 := by omega
      rw [eligibleFilter, if_pos hne] at helig
      simp only [Bool.and_eq_true, decide_eq_true_eq] at helig
      subst hjeq
      exact ⟨helig.1.1.2, lt_of_lt_of_le helig.1.2 (timeoutUpperBound_le_max lr)⟩
  · intro hlr
    have hfil : store.filter (eligibleFilter lr now) = [] := by
      rw [List.filter_eq_nil_iff]
      intro a _
      rw [eligibleFilter, if_pos (by omega : lr ≠ 0)]
      have hub : timeoutUpperBound lr = 0 := by
        unfold timeoutUpperBound
        rw [if_neg (by omega)]
      simp only [hub, Bool.and_eq_true, decide_eq_true_eq, not_and]
      intro _ h0
      omega
    have hqe : queryJobs store (eligibleFilter lr now) lim = [] := by
      rw [queryJobs, hfil]
      show limitTake lim (sortJobs []) = []
      rw [sortJobs, limitTake]
      split <;> simp
    unfold getConcurrentJobs
    rw [hqe]
  · intro j
    rw [eligibleFilter, if_neg (by omega : ¬ ((0:Int) ≠ 0))]

/-- A job that fits a 3000 ms remaining lifespan, for the C2 witness. -/
def lifespanJob : Job :=
  { newJobRow "life" "{}" { timeout := some 600 } "idL" 0 with nextValidTime := 0 }

/-- C2 witness: the three components of the lifespan guard at concrete
inputs — a job with timeout 600 under 3000 ms remaining, an expired
(negative) remaining lifespan, and the lifespan-free predicate. -/
theorem getConcurrentJobs_lifespan_bounds_witness :
    (∀ j ∈ [{ lifespanJob with active := true }],
      0 < j.timeout ∧ j.timeout < max ((3000:Int) - 499) 0) ∧
    getConcurrentJobs (fun _ => some 1) [lifespanJob] (-1) (-1) 5 =
      Except.ok ([lifespanJob], []) ∧
    (∀ j, eligibleFilter 0 5 j =
      (!j.active && j.failed.isNone && decide (j.nextValidTime ≤ 5))) := by
  refine ⟨?_, ?_, ?_⟩
  · exact (getConcurrentJobs_lifespan_bounds (fun _ => some 1) [lifespanJob] (-1) 3000 5
      (by simp)).1 (by decide) (markActive [lifespanJob] [lifespanJob.id])
      [{ lifespanJob with active := true }] (by rfl)
  · exact (getConcurrentJobs_lifespan_bounds (fun _ => some 1) [lifespanJob] (-1) (-1) 5
      (by simp)).2.1 (by decide)
  · exact (getConcurrentJobs_lifespan_bounds (fun _ => some 1) [lifespanJob] (-1) 0 5
      (by simp)).2.2

/-- Two sorted lists that are permutations of each other and whose
`(priority, created)` sort keys are pairwise distinct are equal: the sort
order is then uniquely determined, as the specification's tie-breaking note
("space inserts by at least one clock tick") assumes. -/
theorem sorted_perm_eq_of_distinct_keys :
    ∀ {l₁ l₂ : List Job}, List.Perm l₁ l₂ →
      l₁.Pairwise (fun a b => jobKeyLE a b = true) →
      l₂.Pairwise (fun a b => jobKeyLE a b = true) →
      l₂.Pairwise (fun a b => a.priority ≠ b.priority ∨ a.created ≠ b.created) →
      l₁ = l₂ := by
  intro l₁
  induction l₁ with
  | nil =>
    intro l₂ hp _ _ _
    exact (hp.symm.eq_nil).symm
  | cons a t ih =>
    intro l₂ hp h₁ h₂ hk
    cases l₂ with
    | nil => exact hp.eq_nil
    | cons b t₂ =>
      have hab : a = b := by
        by_contra hne
        have hat₂ : a ∈ t₂ := by
          rcases List.mem_cons.mp (hp.subset (List.mem_cons_self a t)) with h | h
          · exact absurd h hne
          · exact h
        have hbt : b ∈ t := by
          rcases List.mem_cons.mp (hp.symm.subset (List.mem_cons_self b t₂)) with h | h
          · exact absurd h.symm hne
          · exact h
        have hLE1 : jobKeyLE a b = true := (List.pairwise_cons.mp h₁).1 b hbt
        have hLE2 : jobKeyLE b a = true := (List.pairwise_cons.mp h₂).1 a hat₂
        have hkeys := jobKeyLE_antisymm_keys a b hLE1 hLE2
        rcases (List.pairwise_cons.mp hk).1 a hat₂ with h | h
        · exact h hkeys.1.symm
        · exact h hkeys.2.symm
      subst hab
      rw [ih hp.cons_inv (List.pairwise_cons.mp h₁).2 (List.pairwise_cons.mp h₂).2
        (List.pairwise_cons.mp hk).2]

/-- A pairwise property of the store carries over to any of the three store
queries (filtering, sorting and limiting preserve it when it is
symmetric). -/
theorem queryJobs_pairwise {R : Job → Job → Prop}
    (hsym : ∀ {x y : Job}, R x y → R y x)
    (store : List Job) (p : Job → Bool) (lim : Int)
    (h : store.Pairwise R) : (queryJobs store p lim).Pairwise R := by
  have h1 : (store.filter p).Pairwise R :=
    List.Pairwise.sublist (List.filter_sublist store) h
  have h2 : (sortJobs (store.filter p)).Pairwise R :=
    (List.Perm.pairwise_iff hsym (sortJobs_perm _)).mpr h1
  exact List.Pairwise.sublist (limitTake_sublist lim _) h2

/-- The result of any of the three store queries is sorted by the
priority-descending, created-ascending key. -/
theorem queryJobs_sorted (store : List Job) (p : Job → Bool) (lim : Int) :
    (queryJobs store p lim).Pairwise (fun a b => jobKeyLE a b = true) :=
  List.Pairwise.sublist (limitTake_sublist lim _) (sortJobs_sorted _)

/-- A cons-shaped `limitTake` result exposes the head of the underlying
list. -/
theorem limitTake_cons {lim : Int} {l : List Job} {a : Job} {t : List Job}
    (h : limitTake lim l = a :: t) : ∃ t', l = a :: t' := by
  unfold limitTake at h
  split at h
  · cases l with
    | nil => simp at h
    | cons x xs =>
      cases hn : lim.toNat with
      | zero => rw [hn] at h; simp at h
      | succ n =>
        rw [hn, List.take_succ_cons] at h
        have hx : x = a := (List.cons_eq_cons.mp h).1
        exact ⟨xs, by rw [hx]⟩
  · exact ⟨t, h⟩

/-- C1: when the eligibility query (no lifespan mode: `active == false`,
`failed == null`, `nextValidTime <= now`) is nonempty, its head is the pivot
— an eligible row that every eligible row is below in the priority-
descending, created-ascending order.  The call returns exactly the first
`concurrency_of(pivot.name)` eligible rows of the pivot's name in that same
order (with the `LIMIT(jobs_limit)` clause applied when `jobs_limit >= 0`),
those returned rows are `active == true` afterwards, and the
post-transaction store is the old store with `active` flipped on exactly the
returned ids — every other row keeps its prior `active` value.  The
hypotheses are Realm's primary-key uniqueness and the specification's
tie-breaking assumption of pairwise distinct `(priority, created)` keys. -/
theorem getConcurrentJobs_pivot_batch_marks_active
    (w : String → Option Nat) (store : List Job) (lim now : Int)
    (pivot : Job) (rest : List Job) (conc : Nat)
    (hIds : store.Pairwise (fun a b => a.id ≠ b.id))
    (hKeys : store.Pairwise (fun a b => a.priority ≠ b.priority ∨ a.created ≠ b.created))
    (hq : queryJobs store (eligibleFilter 0 now) lim = pivot :: rest)
    (hw : w pivot.name = some conc) :
    eligibleFilter 0 now pivot = true ∧ pivot ∈ store ∧
    (∀ j ∈ store, eligibleFilter 0 now j = true → jobKeyLE pivot j = true) ∧
    (∃ res store',
      getConcurrentJobs w store lim 0 now = Except.ok (store', res) ∧
      res = ((relatedJobsQuery store 0 now pivot.name lim).take conc).map
        (fun j => { j with active := true }) ∧
      (∀ r ∈ res, r.active = true) ∧
      store' = markActive store (res.map (fun r => r.id))) := by
  have hpivotmem : pivot ∈ queryJobs store (eligibleFilter 0 now) lim := by
    rw [hq]; exact List.mem_cons_self _ _
  obtain ⟨hpivotstore, hpivotelig⟩ := mem_queryJobs hpivotmem
  refine ⟨hpivotelig, hpivotstore, ?_, ?_⟩
  · -- the pivot is maximal among eligible rows
    obtain ⟨t', hsort⟩ := limitTake_cons hq
    intro j hjs hje
    have hjmem : j ∈ sortJobs (store.filter (eligibleFilter 0 now)) :=
      mem_sortJobs.mpr (List.mem_filter.mpr ⟨hjs, hje⟩)
    rw [hsort] at hjmem
    rcases List.mem_cons.mp hjmem with rfl | hjt
    · exact jobKeyLE_refl j
    · have hpw := sortJobs_sorted (store.filter (eligibleFilter 0 now))
      rw [hsort] at hpw
      exact (List.pairwise_cons.mp hpw).1 j hjt
  · -- the claimed batch and the store update
    refine ⟨((relatedJobsQuery store 0 now pivot.name lim).take conc).map
        (fun j => { j with active := true }),
      markActive store
        (((relatedJobsQuery store 0 now pivot.name lim).take conc).map (fun j => j.id)),
      ?_, rfl, ?_, ?_⟩
    · -- the call's result
      have hidne : ∀ {x y : Job}, x.id ≠ y.id → y.id ≠ x.id := fun h e => h e.symm
      have hstore_nodup : store.Nodup :=
        hIds.imp (fun h e => h (congrArg Job.id e))
      have htm_pw_id : ((relatedJobsQuery store 0 now pivot.name lim).take
          conc).Pairwise (fun a b => a.id ≠ b.id) :=
        List.Pairwise.sublist (List.take_sublist _ _)
          (queryJobs_pairwise hidne store _ lim hIds)
      have htm_sorted : ((relatedJobsQuery store 0 now pivot.name lim).take
          conc).Pairwise (fun a b => jobKeyLE a b = true) :=
        List.Pairwise.sublist (List.take_sublist _ _) (queryJobs_sorted store _ lim)
      have htm_keys : ((relatedJobsQuery store 0 now pivot.name lim).take
          conc).Pairwise (fun a b => a.priority ≠ b.priority ∨ a.created ≠ b.created) :=
        List.Pairwise.sublist (List.take_sublist _ _)
          (queryJobs_pairwise (fun h => h.imp Ne.symm Ne.symm) store _ lim hKeys)
      have htm_sub : ∀ m ∈ (relatedJobsQuery store 0 now pivot.name lim).take conc,
          m ∈ store :=
        fun m hm => (mem_queryJobs ((List.take_sublist _ _).subset hm)).1
      have htm_nodup : ((relatedJobsQuery store 0 now pivot.name lim).take conc).Nodup :=
        htm_pw_id.imp (fun h e => h (congrArg Job.id e))
      have hfilter_perm : List.Perm
          (store.filter (fun j =>
            ((((relatedJobsQuery store 0 now pivot.name lim).take conc).map
              (fun j => j.id))).contains j.id))
          ((relatedJobsQuery store 0 now pivot.name lim).take conc) := by
        apply (List.perm_ext_iff_of_nodup
          (List.Nodup.sublist (List.filter_sublist store) hstore_nodup) htm_nodup).mpr
        intro x
        rw [List.mem_filter]
        constructor
        · rintro ⟨hxs, hxc⟩
          obtain ⟨m, hm, hmid⟩ := List.mem_map.mp (List.mem_of_elem_eq_true hxc)
          rwa [eq_of_mem_of_same_id hIds hxs (htm_sub m hm) hmid.symm]
        · intro hx
          exact ⟨htm_sub x hx,
            List.elem_eq_true_of_mem (List.mem_map_of_mem _ hx)⟩
      have hmf : (markActive store
            (((relatedJobsQuery store 0 now pivot.name lim).take conc).map
              (fun j => j.id))).filter
            (fun j => ((((relatedJobsQuery store 0 now pivot.name lim).take conc).map
              (fun j => j.id))).contains j.id) =
          (store.filter (fun j =>
            ((((relatedJobsQuery store 0 now pivot.name lim).take conc).map
              (fun j => j.id))).contains j.id)).map
            (fun j => { j with active := true }) := by
        rw [markActive, List.filter_map]
        rw [List.filter_congr (fun x _ => by
          simp only [Function.comp_apply]
          split <;> rfl)]
        exact List.map_congr_left (fun x hx => by rw [if_pos (List.of_mem_filter hx)])
      have hsorted_eq : sortJobs ((markActive store
            (((relatedJobsQuery store 0 now pivot.name lim).take conc).map
              (fun j => j.id))).filter
            (fun j => ((((relatedJobsQuery store 0 now pivot.name lim).take conc).map
              (fun j => j.id))).contains j.id)) =
          ((relatedJobsQuery store 0 now pivot.name lim).take conc).map
            (fun j => { j with active := true }) := by
        apply sorted_perm_eq_of_distinct_keys
        · exact (sortJobs_perm _).trans ((List.Perm.of_eq hmf).trans
            (hfilter_perm.map (fun j => { j with active := true })))
        · exact sortJobs_sorted _
        · exact htm_sorted.map _ (fun a b h => h)
        · exact htm_keys.map _ (fun a b h => h)
      have hresel : queryJobs (markActive store
            (((relatedJobsQuery store 0 now pivot.name lim).take conc).map
              (fun j => j.id)))
            (fun j => ((((relatedJobsQuery store 0 now pivot.name lim).take conc).map
              (fun j => j.id))).contains j.id) lim =
          ((relatedJobsQuery store 0 now pivot.name lim).take conc).map
            (fun j => { j with active := true }) := by
        rw [queryJobs, hsorted_eq]
        unfold limitTake
        split
        · apply List.take_of_length_le
          rw [List.length_map]
          refine le_trans (List.length_take_le' _ _) ?_
          rw [relatedJobsQuery, queryJobs, limitTake]
          rw [if_pos ‹lim > -1›]
          exact List.length_take_le _ _
        · rfl
      have hfinal : (((relatedJobsQuery store 0 now pivot.name lim).take conc).map
            (fun j => { j with active := true })).take conc =
          ((relatedJobsQuery store 0 now pivot.name lim).take conc).map
            (fun j => { j with active := true }) := by
        apply List.take_of_length_le
        rw [List.length_map]
        exact List.length_take_le _ _
      unfold getConcurrentJobs
      rw [hq]
      simp only [hw]
      rw [hresel, hfinal]
    · -- returned rows are active
      intro r hr
      obtain ⟨j₀, _, hj₀⟩ := List.mem_map.mp hr
      rw [← hj₀]
    · -- the marked ids are the returned ids
      rw [List.map_map]
      rfl

/-- Concrete jobs for the C1 witness: three eligible rows with distinct
priorities, two sharing the name `B`. -/
def c1JobA : Job := newJobRow "A" "{}" { priority := some 0 } "a1" 0

def c1JobB1 : Job := newJobRow "B" "{}" { priority := some 3 } "b1" 1

def c1JobB2 : Job := newJobRow "B" "{}" { priority := some 5 } "b2" 2

def c1Store : List Job := [c1JobA, c1JobB1, c1JobB2]

def c1Registry : String → Option Nat := fun n => if n = "B" then some 2 else some 3

/-- C1 witness: at the concrete store, the priority-5 job of name `B` is the
pivot and the batch consists of the `B` jobs marked active. -/
theorem getConcurrentJobs_pivot_batch_marks_active_witness :
    eligibleFilter 0 10 c1JobB2 = true ∧ c1JobB2 ∈ c1Store ∧
    (∀ j ∈ c1Store, eligibleFilter 0 10 j = true → jobKeyLE c1JobB2 j = true) ∧
    (∃ res store',
      getConcurrentJobs c1Registry c1Store (-1) 0 10 = Except.ok (store', res) ∧
      res = ((relatedJobsQuery c1Store 0 10 c1JobB2.name (-1)).take 2).map
        (fun j => { j with active := true }) ∧
      (∀ r ∈ res, r.active = true) ∧
      store' = markActive c1Store (res.map (fun r => r.id))) :=
  getConcurrentJobs_pivot_batch_marks_active c1Registry c1Store (-1) 10 c1JobB2
    [c1JobB1, c1JobA] 2 (by decide) (by decide) (by decide) (by decide)

/-- The per-row invariant claimed by the specification (section 8,
invariants 1 and 2): `0 ≤ failedAttempts ≤ attempts`, and `failed` is set
exactly when the attempts are exhausted.  An absent `failedAttempts` counts
as zero. -/
def jobInvariant (j : Job) : Prop :=
  0 ≤ j.data.failedAttempts.getD 0 ∧
  j.data.failedAttempts.getD 0 ≤ j.data.attempts ∧
  (j.failed ≠ none ↔ j.data.attempts ≤ j.data.failedAttempts.getD 0)

instance (j : Job) : Decidable (jobInvariant j) := by
  unfold jobInvariant
  infer_instance

/-- The stores reachable through the public API from an empty store: any
sequence of `create_job`, `get_concurrent_jobs` (the store-writing parts of
`start`), `process_job` on any row id with any handler outcome,
`flush_queue` and `flush_job`.  `stop` touches no row. -/
inductive ReachAPI : List Job → Prop where
  | init : ReachAPI []
  | create (s s' : List Job) (name payload id : String) (opts : JobOptions) (now : Int) :
      ReachAPI s → createJob name payload opts id now s = Except.ok s' → ReachAPI s'
  | claim (s s' batch : List Job) (w : String → Option Nat) (lim lr now : Int) :
      ReachAPI s → getConcurrentJobs w s lim lr now = Except.ok (s', batch) →
      ReachAPI s'
  | process (s : List Job) (jobId : String) (outcome : Except String Unit) (now : Int) :
      ReachAPI s → ReachAPI (processJob s jobId outcome now)
  | flushQ (s : List Job) (jobName : Option String) :
      ReachAPI s → ReachAPI (flushQueue s jobName)
  | flushJ (s : List Job) (jobId : String) :
      ReachAPI s → ReachAPI (flushJob s jobId)

/-- The same transition system with `process_job` restricted to rows that
are not already terminally failed — the discipline the scheduler's own run
loop follows, since `get_concurrent_jobs` only claims rows with
`failed == null`. -/
inductive ReachChecked : List Job → Prop where
  | init : ReachChecked []
  | create (s s' : List Job) (name payload id : String) (opts : JobOptions) (now : Int) :
      ReachChecked s → createJob name payload opts id now s = Except.ok s' →
      ReachChecked s'
  | claim (s s' batch : List Job) (w : String → Option Nat) (lim lr now : Int) :
      ReachChecked s → getConcurrentJobs w s lim lr now = Except.ok (s', batch) →
      ReachChecked s'
  | processOk (s : List Job) (jobId : String) (u : Unit) (now : Int) :
      ReachChecked s → ReachChecked (processJob s jobId (Except.ok u) now)
  | processErr (s : List Job) (jobId msg : String) (now : Int) :
      ReachChecked s → (∀ j ∈ s, j.id = jobId → j.failed = none) →
      ReachChecked (processJob s jobId (Except.error msg) now)
  | flushQ (s : List Job) (jobName : Option String) :
      ReachChecked s → ReachChecked (flushQueue s jobName)
  | flushJ (s : List Job) (jobId : String) :
      ReachChecked s → ReachChecked (flushJob s jobId)

/-- A fresh single-attempt job for the C6 counterexample. -/
def c6Job : Job := newJobRow "w" "{}" {} "c6id" 0

/-- The store after creating `c6Job` and running two failing `process_job`
calls on it: the second failure bumps `failedAttempts` to 2 while
`attempts` is 1. -/
def c6Store : List Job :=
  processJob (processJob [c6Job] "c6id" (Except.error "boom") 1) "c6id"
    (Except.error "boom") 2

/-- C6 counterexample: a store reachable through the public API (create one
single-attempt job, then call `process_job` twice with a failing handler)
contains a row with `failedAttempts == 2 > attempts == 1`, violating the
claimed invariant — `process_job` never checks whether the row is already
terminally failed. -/
theorem reachAPI_invariant_fails :
    ReachAPI c6Store ∧ ¬ (∀ j ∈ c6Store, jobInvariant j) := by
  constructor
  · exact ReachAPI.process _ _ _ _ (ReachAPI.process _ _ _ _
      (ReachAPI.create [] [c6Job] "w" "{}" "c6id" {} 0 ReachAPI.init rfl))
  · decide

/-- The store after a successful `get_concurrent_jobs` is either unchanged
or the old store with `active` flipped on some id set; no row's `data`,
`failed` or other column changes. -/
theorem getConcurrentJobs_store_cases
    (w : String → Option Nat) (s : List Job) (lim lr now : Int)
    (s' batch : List Job)
    (hok : getConcurrentJobs w s lim lr now = Except.ok (s', batch)) :
    s' = s ∨ ∃ ids, s' = markActive s ids := by
  unfold getConcurrentJobs at hok
  rcases hq : queryJobs s (eligibleFilter lr now) lim with _ | ⟨nj, t⟩
  · rw [hq] at hok
    simp only [Except.ok.injEq, Prod.mk.injEq] at hok
    exact Or.inl hok.1.symm
  · rw [hq] at hok
    rcases hw : w nj.name with _ | conc
    · simp only [hw] at hok
      exact Except.noConfusion hok
    · simp only [hw, Except.ok.injEq, Prod.mk.injEq] at hok
      exact Or.inr ⟨_, hok.1.symm⟩

/-- C6 amended: the invariant `0 ≤ failedAttempts ≤ attempts` with
`failed != null ⟺ failedAttempts ≥ attempts` holds in every state reachable
through the public API provided `process_job` is only invoked on rows that
are not yet terminally failed (`failed == null`) — which is the case for
every row handed out by `get_concurrent_jobs`. -/
theorem reachChecked_invariant (s : List Job) (h : ReachChecked s) :
    ∀ j ∈ s, jobInvariant j := by
  have main : ∀ j ∈ s, jobInvariant j ∧ 1 ≤ j.data.attempts := by
    induction h with
    | init => simp
    | create s s' name payload id opts now hs hok ih =>
      intro j hj
      unfold createJob at hok
      split at hok
      · exact Except.noConfusion hok
      · split at hok
        · exact Except.noConfusion hok
        · rename_i hguard
          simp only [Except.ok.injEq] at hok
          subst hok
          rcases List.mem_append.mp hj with hj' | hj'
          · exact ih j hj'
          · rw [List.mem_singleton] at hj'
            subst hj'
            have hatt : 1 ≤ (newJobRow name payload opts id now).data.attempts := by
              show 1 ≤ jsOrDefault opts.attempts 1
              rcases ha : opts.attempts with _ | a
              · simp [jsOrDefault]
              · have h0 : 0 ≤ a := by
                  by_contra hlt
                  apply hguard
                  rw [Bool.or_eq_true]
                  right
                  rw [ha]
                  simpa using by omega
                simp only [jsOrDefault]
                split
                · omega
                · omega
            refine ⟨⟨by simp [newJobRow], ?_, ?_⟩, hatt⟩
            · show (0:Int) ≤ _
              omega
            · show (none ≠ none) ↔ _ ≤ (0:Int)
              constructor
              · intro hne
                exact absurd rfl hne
              · intro hle
                omega
    | claim s s' batch w lim lr now hs hok ih =>
      intro j hj
      rcases getConcurrentJobs_store_cases w s lim lr now s' batch hok with rfl | ⟨ids, rfl⟩
      · exact ih j hj
      · obtain ⟨j₀, hj₀, hfj₀⟩ := List.mem_map.mp hj
        have := ih j₀ hj₀
        rw [← hfj₀]
        split
        · exact this
        · exact this
    | processOk s jobId u now hs ih =>
      intro j hj
      exact ih j (List.mem_of_mem_filter hj)
    | processErr s jobId msg now hs hsafe ih =>
      intro j hj
      obtain ⟨j₀, hj₀, hfj₀⟩ := List.mem_map.mp hj
      by_cases hc : j₀.id = jobId
      · rw [if_pos hc] at hfj₀
        subst hfj₀
        have hfnone : j₀.failed = none := hsafe j₀ hj₀ hc
        obtain ⟨⟨h0, h1, h2⟩, hatt⟩ := ih j₀ hj₀
        have hfa_lt : j₀.data.failedAttempts.getD 0 < j₀.data.attempts := by
          have hno : ¬ (j₀.data.attempts ≤ j₀.data.failedAttempts.getD 0) := by
            intro hle
            exact (by rw [hfnone] at h2; exact (h2.mpr hle) rfl)
          omega
        have hbump : bumpFailedAttempts j₀.data.failedAttempts =
            j₀.data.failedAttempts.getD 0 + 1 := by
          rcases hfa : j₀.data.failedAttempts with _ | n
          · simp [bumpFailedAttempts]
          · rw [hfa] at h0
            simp only [Option.getD_some] at h0 ⊢
            simp only [bumpFailedAttempts]
            split
            · omega
            · rfl
        refine ⟨⟨?_, ?_, ?_⟩, ?_⟩
        · show (0:Int) ≤ (Option.some (bumpFailedAttempts j₀.data.failedAttempts)).getD 0
          rw [Option.getD_some, hbump]
          omega
        · show (Option.some (bumpFailedAttempts j₀.data.failedAttempts)).getD 0 ≤
            j₀.data.attempts
          rw [Option.getD_some, hbump]
          omega
        · show ((if j₀.data.attempts ≤ bumpFailedAttempts j₀.data.failedAttempts
              then some now else j₀.failed) ≠ none) ↔
            j₀.data.attempts ≤ (Option.some (bumpFailedAttempts j₀.data.failedAttempts)).getD 0
          rw [Option.getD_some]
          split
          · rename_i hcond
            exact ⟨fun _ => hcond, fun _ h => Option.noConfusion h⟩
          · rename_i hcond
            rw [hfnone]
            exact ⟨fun hne => absurd rfl hne, fun hle => absurd hle hcond⟩
        · exact hatt
      · rw [if_neg hc] at hfj₀
        subst hfj₀
        exact ih j₀ hj₀
    | flushQ s jobName hs ih =>
      intro j hj
      rcases jobName with _ | n
      · cases hj
      · exact ih j (List.mem_of_mem_filter hj)
    | flushJ s jobId hs ih =>
      intro j hj
      exact ih j (List.mem_of_mem_filter hj)
  intro j hj
  exact (main j hj).1

/-- C6 witness for the amended invariant: the single row of a concrete
one-failure store (reached by creating `c6Job` and failing it once under
the checked discipline) satisfies the invariant. -/
theorem reachChecked_invariant_witness :
    jobInvariant (failJobUpdate c6Job "boom" 1) :=
  reachChecked_invariant _
    (ReachChecked.processErr [c6Job] "c6id" "boom" 1
      (ReachChecked.create [] [c6Job] "w" "{}" "c6id" {} 0 ReachChecked.init rfl)
      (by decide))
    (failJobUpdate c6Job "boom" 1) (by decide)
